import Mathlib

/-!
Verification development for the archive manager's persistence-and-integrity
core (`src/electron/database.ts`, `src/electron/main.ts`, the session store,
and the schema migrator).  The TypeScript source is shallowly embedded:

* SQLite rows become Lean structures; tables become lists kept in rowid
  (insertion) order; `AUTOINCREMENT` ids are explicit counters.
* `created_at` / `updated_at` ISO-8601 text timestamps are embedded as
  integer milliseconds since the epoch (the textual and chronological
  orders agree for this fixed format).  SQLite's `datetime(...)` truncates
  the fractional seconds of an ISO string, so its sort key is the
  second-truncated value `ms / 1000` (`Int` division here is euclidean,
  i.e. floor for the positive divisors used); `DATE(...)` and `DATE('now')`
  yield the UTC calendar day `ms / 86400000`.
* `JSON.stringify` / `JSON.parse` are modelled by a concrete JSON codec
  over an inductive value type (`emit` / `parseJson`).
* `bcrypt.compare` and `bcrypt.hash` are external and are passed in as an
  opaque comparison function / precomputed hash string.
* `ORDER BY ... DESC` is modelled as a stable insertion sort on the key:
  rows with equal keys stay in rowid order (SQLite leaves the relative
  order of equal keys unspecified; the stable choice mirrors its
  rowid-order table scan).
-/

/-! ## JSON values and the `JSON.stringify` / `JSON.parse` model -/

inductive Json where
  | null : Json
  | bool (b : Bool) : Json
  | num (n : Int) : Json
  | str (s : String) : Json
  | arr (elems : List Json) : Json
  | obj (fields : List (String × Json)) : Json

/-- A metadata payload is a JSON object (`Record<string, unknown>`). -/
abbrev JsonObj := List (String × Json)

def lbrace : Char := Char.ofNat 123

def rbrace : Char := Char.ofNat 125

def digitChar (n : Nat) : Char := Char.ofNat (48 + n)

/-- Decimal digits of `n`, most significant first (fuel-indexed so that the
kernel can evaluate it). -/
def natCharsAux : Nat → Nat → List Char
  | 0, _ => []
  | f + 1, n =>
    if n < 10 then [digitChar n]
    else natCharsAux f (n / 10) ++ [digitChar (n % 10)]

def natChars (n : Nat) : List Char := natCharsAux (n + 1) n

/-- `JSON.stringify` output for an integer. -/
def intChars (n : Int) : List Char :=
  if n < 0 then '-' :: natChars n.natAbs else natChars n.toNat

/-- String-body escaping: `"` and `\` get a backslash, as in JSON. -/
def escChar (c : Char) : List Char :=
  if c = '"' ∨ c = '\\' then ['\\', c] else [c]

def escChars : List Char → List Char
  | [] => []
  | c :: cs => escChar c ++ escChars cs

def emitStr (s : String) : List Char := '"' :: (escChars s.data ++ ['"'])

mutual

/-- The character stream `JSON.stringify` produces for a value. -/
def emit : Json → List Char
  | .null => 'n' :: 'u' :: 'l' :: 'l' :: []
  | .bool true => 't' :: 'r' :: 'u' :: 'e' :: []
  | .bool false => 'f' :: 'a' :: 'l' :: 's' :: 'e' :: []
  | .num n => intChars n
  | .str s => emitStr s
  | .arr xs => '[' :: (emitItems xs ++ [']'])
  | .obj fs => lbrace :: (emitFields fs ++ [rbrace])

def emitItems : List Json → List Char
  | [] => []
  | [x] => emit x
  | x :: y :: xs => emit x ++ ',' :: emitItems (y :: xs)

def emitFields : List (String × Json) → List Char
  | [] => []
  | [(k, v)] => emitStr k ++ ':' :: emit v
  | (k, v) :: f :: fs => emitStr k ++ ':' :: emit v ++ ',' :: emitFields (f :: fs)

end

def stringify (j : Json) : String := String.mk (emit j)

/-- Greedy digit run; accumulates onto `acc` and stops at the first
non-digit. -/
def parseDigits : List Char → Nat → Nat × List Char
  | [], acc => (acc, [])
  | c :: rest, acc =>
    if c.isDigit then parseDigits rest (acc * 10 + (c.toNat - 48))
    else (acc, c :: rest)

/-- Body of a JSON string after the opening quote, undoing `escChar`. -/
def parseStrBody : List Char → Option (List Char × List Char)
  | [] => none
  | c :: rest =>
    if c = '"' then some ([], rest)
    else if c = '\\' then
      match rest with
      | [] => none
      | c2 :: rest2 => (parseStrBody rest2).map (fun p => (c2 :: p.1, p.2))
    else (parseStrBody rest).map (fun p => (c :: p.1, p.2))

mutual

/-- Recursive-descent JSON value parser (fuel-indexed). -/
def parseVal : Nat → List Char → Option (Json × List Char)
  | 0, _ => none
  | _ + 1, [] => none
  | fuel + 1, c :: rest =>
    if c = 'n' then
      match rest with
      | 'u' :: 'l' :: 'l' :: r => some (.null, r)
      | _ => none
    else if c = 't' then
      match rest with
      | 'r' :: 'u' :: 'e' :: r => some (.bool true, r)
      | _ => none
    else if c = 'f' then
      match rest with
      | 'a' :: 'l' :: 's' :: 'e' :: r => some (.bool false, r)
      | _ => none
    else if c = '"' then
      (parseStrBody rest).map (fun p => (.str (String.mk p.1), p.2))
    else if c = '[' then
      match rest with
      | ']' :: r => some (.arr [], r)
      | _ => (parseItems fuel rest).map (fun p => (.arr p.1, p.2))
    else if c = lbrace then
      match rest with
      | c2 :: r2 =>
        if c2 = rbrace then some (.obj [], r2)
        else (parseFields fuel (c2 :: r2)).map (fun p => (.obj p.1, p.2))
      | [] => none
    else if c = '-' then
      match rest with
      | d :: r =>
        if d.isDigit then
          let p := parseDigits r (d.toNat - 48)
          some (.num (-(p.1 : Int)), p.2)
        else none
      | [] => none
    else if c.isDigit then
      let p := parseDigits rest (c.toNat - 48)
      some (.num (p.1 : Int), p.2)
    else none

/-- Comma-separated values up to the closing `]` (at least one value). -/
def parseItems : Nat → List Char → Option (List Json × List Char)
  | 0, _ => none
  | fuel + 1, l =>
    match parseVal fuel l with
    | none => none
    | some (x, r) =>
      match r with
      | ',' :: r2 => (parseItems fuel r2).map (fun p => (x :: p.1, p.2))
      | ']' :: r2 => some ([x], r2)
      | _ => none

/-- Comma-separated `"key":value` pairs up to the closing brace. -/
def parseFields : Nat → List Char → Option (List (String × Json) × List Char)
  | 0, _ => none
  | fuel + 1, l =>
    match l with
    | '"' :: r =>
      match parseStrBody r with
      | none => none
      | some (k, r1) =>
        match r1 with
        | ':' :: r2 =>
          match parseVal fuel r2 with
          | none => none
          | some (v, r3) =>
            match r3 with
            | ',' :: r4 => (parseFields fuel r4).map (fun p => ((String.mk k, v) :: p.1, p.2))
            | c :: r4 => if c = rbrace then some ([(String.mk k, v)], r4) else none
            | [] => none
        | _ => none
    | _ => none

end

/-- `JSON.parse`, restricted to the whitespace-free texts `stringify`
produces (whole input must be consumed). -/
def parseJson (s : String) : Option Json :=
  match parseVal (s.data.length + 1) s.data with
  | some (j, []) => some j
  | _ => none

/-! ## Correctness of the JSON codec on its own output -/

theorem string_mk_data (s : String) : String.mk s.data = s := by
  cases s; rfl

theorem digitChar_toNat {n : Nat} (h : n < 10) : (digitChar n).toNat = 48 + n := by
  interval_cases n <;> rfl

theorem digitChar_isDigit {n : Nat} (h : n < 10) : (digitChar n).isDigit = true := by
  interval_cases n <;> rfl

theorem natCharsAux_irrel : ∀ f1 f2 n, n < f1 → n < f2 →
    natCharsAux f1 n = natCharsAux f2 n := by
  intro f1
  induction f1 with
  | zero => intro f2 n h1 _; omega
  | succ f ih =>
    intro f2 n h1 h2
    cases f2 with
    | zero => omega
    | succ g =>
      simp only [natCharsAux]
      by_cases hn : n < 10
      · simp [hn]
      · have hdiv : n / 10 < n := Nat.div_lt_self (by omega) (by omega)
        have e1 : natCharsAux f (n / 10) = natCharsAux g (n / 10) :=
          ih g (n / 10) (by omega) (by omega)
        simp [hn, e1]

theorem natChars_eq (n : Nat) :
    natChars n = if n < 10 then [digitChar n]
      else natChars (n / 10) ++ [digitChar (n % 10)] := by
  by_cases hn : n < 10
  · simp [natChars, natCharsAux, hn]
  · have hdiv : n / 10 < n := Nat.div_lt_self (by omega) (by omega)
    have e := natCharsAux_irrel n (n / 10 + 1) (n / 10) hdiv (by omega)
    have l1 : natChars n = natCharsAux n (n / 10) ++ [digitChar (n % 10)] := by
      simp only [natChars, natCharsAux, hn, if_false]
    rw [l1, if_neg hn, e]
    rfl

theorem natChars_digits (n : Nat) : ∀ c ∈ natChars n, c.isDigit = true := by
  induction n using Nat.strong_induction_on with
  | _ n ih =>
    rw [natChars_eq]
    by_cases hn : n < 10
    · simp only [hn, if_true, List.mem_singleton]
      rintro c rfl
      exact digitChar_isDigit hn
    · have hdiv : n / 10 < n := Nat.div_lt_self (by omega) (by omega)
      simp only [hn, if_false, List.mem_append, List.mem_singleton]
      rintro c (hc | rfl)
      · exact ih (n / 10) hdiv c hc
      · exact digitChar_isDigit (Nat.mod_lt _ (by omega))

theorem natChars_ne_nil (n : Nat) : natChars n ≠ [] := by
  rw [natChars_eq]
  by_cases hn : n < 10 <;> simp [hn]

def natVal (cs : List Char) (acc : Nat) : Nat :=
  cs.foldl (fun a c => a * 10 + (c.toNat - 48)) acc

theorem natVal_append (xs ys : List Char) (acc : Nat) :
    natVal (xs ++ ys) acc = natVal ys (natVal xs acc) := by
  simp [natVal, List.foldl_append]

theorem natVal_natChars (n : Nat) : ∀ acc,
    natVal (natChars n) acc = acc * 10 ^ (natChars n).length + n := by
  induction n using Nat.strong_induction_on with
  | _ n ih =>
    intro acc
    rw [natChars_eq]
    by_cases hn : n < 10
    · simp [hn, natVal, digitChar_toNat hn]
    · have hdiv : n / 10 < n := Nat.div_lt_self (by omega) (by omega)
      simp only [hn, if_false]
      rw [natVal_append, ih (n / 10) hdiv acc]
      have hm : n % 10 < 10 := Nat.mod_lt _ (by omega)
      simp only [natVal, List.foldl_cons, List.foldl_nil, digitChar_toNat hm,
        List.length_append, List.length_singleton]
      have h48 : 48 + n % 10 - 48 = n % 10 := by omega
      rw [h48, pow_succ]
      have := Nat.div_add_mod n 10
      ring_nf
      omega

theorem parseDigits_append (ds : List Char) :
    ∀ rest acc, (∀ c ∈ ds, c.isDigit = true) →
      parseDigits (ds ++ rest) acc = parseDigits rest (natVal ds acc) := by
  induction ds with
  | nil => intro rest acc _; simp [natVal]
  | cons d ds ih =>
    intro rest acc h
    have hd : d.isDigit = true := h d (List.mem_cons_self d ds)
    simp only [List.cons_append, parseDigits, hd, if_true, List.append_eq]
    rw [ih rest _ (fun c hc => h c (List.mem_cons_of_mem d hc))]
    simp [natVal]

theorem parseDigits_stop (rest : List Char) (acc : Nat)
    (h : ∀ c, rest.head? = some c → c.isDigit = false) :
    parseDigits rest acc = (acc, rest) := by
  cases rest with
  | nil => rfl
  | cons c rest =>
    have := h c rfl
    simp [parseDigits, this]

theorem parseStrBody_esc (cs : List Char) : ∀ rest,
    parseStrBody (escChars cs ++ '"' :: rest) = some (cs, rest) := by
  induction cs with
  | nil =>
    intro rest
    simp only [escChars, List.nil_append]
    unfold parseStrBody
    simp
  | cons c cs ih =>
    intro rest
    simp only [escChars, escChar]
    by_cases h : c = '"' ∨ c = '\\'
    · rw [if_pos h]
      unfold parseStrBody
      rcases h with h | h <;> simp [h, ih]
    · rw [if_neg h]
      push_neg at h
      simp only [List.singleton_append, List.cons_append, List.nil_append]
      unfold parseStrBody
      simp [h.1, h.2, ih]

theorem isDigit_ne {c : Char} (h : c.isDigit = true) :
    c ≠ 'n' ∧ c ≠ 't' ∧ c ≠ 'f' ∧ c ≠ '"' ∧ c ≠ '[' ∧ c ≠ lbrace ∧ c ≠ '-' ∧ c ≠ ']' := by
  refine ⟨?_, ?_, ?_, ?_, ?_, ?_, ?_, ?_⟩ <;>
    (intro hc; rw [hc] at h; revert h; decide)

theorem natChars_head (n : Nat) :
    ∃ d ds, natChars n = d :: ds ∧ d.isDigit = true := by
  cases hc : natChars n with
  | nil => exact absurd hc (natChars_ne_nil n)
  | cons d ds =>
    refine ⟨d, ds, rfl, ?_⟩
    exact natChars_digits n d (by rw [hc]; exact List.mem_cons_self d ds)

theorem emit_head (j : Json) : ∃ c cs, emit j = c :: cs ∧ c ≠ ']' := by
  cases j with
  | null => exact ⟨'n', _, rfl, by decide⟩
  | bool b => cases b with
    | true => exact ⟨'t', _, rfl, by decide⟩
    | false => exact ⟨'f', _, rfl, by decide⟩
  | num n =>
    by_cases hn : n < 0
    · exact ⟨'-', natChars n.natAbs, by simp [emit, intChars, hn], by decide⟩
    · obtain ⟨d, ds, hds, hd⟩ := natChars_head n.toNat
      exact ⟨d, ds, by simp [emit, intChars, hn, hds], (isDigit_ne hd).2.2.2.2.2.2.2⟩
  | str s => exact ⟨'"', escChars s.data ++ ['"'], by simp [emit, emitStr], by decide⟩
  | arr xs => exact ⟨'[', emitItems xs ++ [']'], by simp [emit], by decide⟩
  | obj fs => exact ⟨lbrace, emitFields fs ++ [rbrace], by simp [emit], by decide⟩

mutual

/-- Fuel that suffices for `parseVal` to reparse `emit j`. -/
def fuelJ : Json → Nat
  | .arr xs => fuelItems xs + 1
  | .obj fs => fuelFields fs + 1
  | _ => 1

def fuelItems : List Json → Nat
  | [] => 1
  | x :: xs => max (fuelJ x) (fuelItems xs) + 1

def fuelFields : List (String × Json) → Nat
  | [] => 1
  | kv :: fs => max (fuelJ kv.2) (fuelFields fs) + 1

end

theorem fuelJ_pos (j : Json) : 1 ≤ fuelJ j := by
  cases j <;> simp [fuelJ]

theorem fuelItems_pos (xs : List Json) : 1 ≤ fuelItems xs := by
  cases xs <;> simp [fuelItems]

theorem fuelFields_pos (fs : List (String × Json)) : 1 ≤ fuelFields fs := by
  cases fs with
  | nil => simp [fuelFields]
  | cons f fs => obtain ⟨k, v⟩ := f; simp [fuelFields]

theorem natVal_cons (d : Char) (ds : List Char) :
    natVal (d :: ds) 0 = natVal ds (d.toNat - 48) := by
  simp [natVal]

theorem stopper_cons {a : Char} (h : a.isDigit = false) (l : List Char) :
    ∀ c, ((a :: l).head? = some c) → c.isDigit = false := by
  intro c hc
  simp only [List.head?_cons, Option.some.injEq] at hc
  rw [← hc]
  exact h

theorem fuelItems_cons (x : Json) (xs : List Json) :
    fuelItems (x :: xs) = max (fuelJ x) (fuelItems xs) + 1 := by
  simp only [fuelItems]

theorem fuelFields_cons (k : String) (v : Json) (fs : List (String × Json)) :
    fuelFields ((k, v) :: fs) = max (fuelJ v) (fuelFields fs) + 1 := by
  simp only [fuelFields]

theorem parse_emit : ∀ fuel : Nat,
    (∀ j rest, fuelJ j ≤ fuel → (∀ c, rest.head? = some c → c.isDigit = false) →
      parseVal fuel (emit j ++ rest) = some (j, rest)) ∧
    (∀ xs rest, xs ≠ [] → fuelItems xs ≤ fuel →
      parseItems fuel (emitItems xs ++ ']' :: rest) = some (xs, rest)) ∧
    (∀ fs rest, fs ≠ [] → fuelFields fs ≤ fuel →
      parseFields fuel (emitFields fs ++ rbrace :: rest) = some (fs, rest)) := by
  intro fuel
  induction fuel with
  | zero =>
    refine ⟨fun j _ hf _ => absurd hf (by have := fuelJ_pos j; omega),
      fun xs _ _ hf => absurd hf (by have := fuelItems_pos xs; omega),
      fun fs _ _ hf => absurd hf (by have := fuelFields_pos fs; omega)⟩
  | succ f ih =>
    obtain ⟨ihV, ihI, ihF⟩ := ih
    refine ⟨?_, ?_, ?_⟩
    · intro j rest hf hstop
      cases j with
      | null =>
        simp only [emit, List.cons_append, List.nil_append]
        simp only [parseVal]
        simp
      | bool b =>
        cases b <;>
          (simp only [emit, List.cons_append, List.nil_append]; simp only [parseVal]; simp)
      | num n =>
        simp only [emit]
        by_cases hn : n < 0
        · obtain ⟨d, ds, hds, hd⟩ := natChars_head n.natAbs
          have hdig : ∀ c ∈ ds, c.isDigit = true := fun c hc =>
            natChars_digits n.natAbs c (by rw [hds]; exact List.mem_cons_of_mem d hc)
          simp only [intChars, if_pos hn, hds, List.cons_append]
          simp only [parseVal]
          simp [hd, show ¬ ('-' : Char) = lbrace from by decide]
          rw [parseDigits_append ds rest _ hdig,
            parseDigits_stop rest _ (fun c hc => hstop c hc)]
          have hv : natVal ds (d.toNat - 48) = n.natAbs := by
            have h0 := natVal_natChars n.natAbs 0
            rw [hds, natVal_cons] at h0
            omega
          have hcast : -((natVal ds (d.toNat - 48) : Int)) = n := by
            rw [hv]; omega
          simp [hcast]
        · obtain ⟨d, ds, hds, hd⟩ := natChars_head n.toNat
          have hdig : ∀ c ∈ ds, c.isDigit = true := fun c hc =>
            natChars_digits n.toNat c (by rw [hds]; exact List.mem_cons_of_mem d hc)
          obtain ⟨h1, h2, h3, h4, h5, h6, h7, h8⟩ := isDigit_ne hd
          simp only [intChars, if_neg hn, hds, List.cons_append]
          simp only [parseVal]
          simp [h1, h2, h3, h4, h5, h6, h7, hd]
          rw [parseDigits_append ds rest _ hdig,
            parseDigits_stop rest _ (fun c hc => hstop c hc)]
          have hv : natVal ds (d.toNat - 48) = n.toNat := by
            have h0 := natVal_natChars n.toNat 0
            rw [hds, natVal_cons] at h0
            omega
          have hcast : ((natVal ds (d.toNat - 48) : Int)) = n := by
            rw [hv]; omega
          simp [hcast]
      | str s =>
        simp only [emit, emitStr, List.cons_append, List.append_assoc,
          List.singleton_append, List.nil_append]
        simp only [parseVal]
        simp [parseStrBody_esc, string_mk_data]
      | arr xs =>
        cases xs with
        | nil =>
          simp only [emit, emitItems, List.nil_append, List.cons_append,
            List.singleton_append]
          simp only [parseVal]
          simp
        | cons x xs =>
          obtain ⟨c0, cs0, hc0, hne0⟩ := emit_head x
          have hfu : fuelItems (x :: xs) ≤ f := by
            simp only [fuelJ] at hf
            omega
          obtain ⟨T, hT⟩ : ∃ T, emitItems (x :: xs) ++ ']' :: rest = c0 :: T := by
            cases xs with
            | nil => exact ⟨cs0 ++ ']' :: rest, by simp [emitItems, hc0]⟩
            | cons y ys =>
              exact ⟨cs0 ++ ',' :: (emitItems (y :: ys) ++ ']' :: rest),
                by simp [emitItems, hc0]⟩
          have hI := ihI (x :: xs) rest (by simp) hfu
          rw [hT] at hI
          simp only [emit, List.cons_append, List.append_assoc, List.singleton_append,
            List.nil_append]
          simp only [parseVal]
          rw [hT]
          simp [hne0, hI]
      | obj fs =>
        cases fs with
        | nil =>
          simp only [emit, emitFields, List.nil_append, List.cons_append,
            List.singleton_append]
          simp only [parseVal]
          simp [show ¬ lbrace = 'n' from by decide, show ¬ lbrace = 't' from by decide,
            show ¬ lbrace = 'f' from by decide, show ¬ lbrace = '"' from by decide,
            show ¬ lbrace = '[' from by decide]
        | cons kv fs =>
          obtain ⟨k, v⟩ := kv
          have hfu : fuelFields ((k, v) :: fs) ≤ f := by
            simp only [fuelJ] at hf
            omega
          obtain ⟨T, hT⟩ : ∃ T,
              emitFields ((k, v) :: fs) ++ rbrace :: rest = '"' :: T := by
            cases fs with
            | nil =>
              exact ⟨(escChars k.data ++ ['"']) ++ ':' :: emit v ++ rbrace :: rest,
                by simp [emitFields, emitStr]⟩
            | cons g gs =>
              exact ⟨(escChars k.data ++ ['"']) ++ ':' :: emit v ++
                  ',' :: emitFields (g :: gs) ++ rbrace :: rest,
                by simp [emitFields, emitStr]⟩
          have hF := ihF ((k, v) :: fs) rest (by simp) hfu
          rw [hT] at hF
          simp only [emit, List.cons_append, List.append_assoc, List.singleton_append,
            List.nil_append]
          simp only [parseVal]
          rw [hT]
          simp [hF, show ('"' : Char) ≠ rbrace from by decide,
            show ¬ lbrace = 'n' from by decide, show ¬ lbrace = 't' from by decide,
            show ¬ lbrace = 'f' from by decide, show ¬ lbrace = '"' from by decide,
            show ¬ lbrace = '[' from by decide]
    · intro xs rest hne hfu
      cases xs with
      | nil => exact absurd rfl hne
      | cons x xs =>
        cases xs with
        | nil =>
          rw [fuelItems_cons] at hfu
          have hx : fuelJ x ≤ f := by
            have h1 : fuelJ x ≤ max (fuelJ x) (fuelItems []) := le_max_left _ _
            omega
          have hV := ihV x (']' :: rest) hx (stopper_cons (by decide) rest)
          simp only [emitItems, List.append_assoc, List.singleton_append,
            List.nil_append]
          simp only [parseItems]
          rw [hV]
          simp
        | cons y ys =>
          rw [fuelItems_cons] at hfu
          have hx : fuelJ x ≤ f := by
            have h1 : fuelJ x ≤ max (fuelJ x) (fuelItems (y :: ys)) := le_max_left _ _
            omega
          have hys : fuelItems (y :: ys) ≤ f := by
            have h1 : fuelItems (y :: ys) ≤ max (fuelJ x) (fuelItems (y :: ys)) :=
              le_max_right _ _
            omega
          have hV := ihV x (',' :: (emitItems (y :: ys) ++ ']' :: rest)) hx
            (stopper_cons (by decide) _)
          have hI := ihI (y :: ys) rest (by simp) hys
          simp only [emitItems, List.append_assoc, List.cons_append, List.nil_append]
          simp only [parseItems]
          rw [hV]
          simp [hI]
    · intro fs rest hne hfu
      cases fs with
      | nil => exact absurd rfl hne
      | cons kv fs =>
        obtain ⟨k, v⟩ := kv
        cases fs with
        | nil =>
          rw [fuelFields_cons] at hfu
          have hv : fuelJ v ≤ f := by
            have h1 : fuelJ v ≤ max (fuelJ v) (fuelFields []) := le_max_left _ _
            omega
          have hV := ihV v (rbrace :: rest) hv (stopper_cons (by decide) rest)
          simp only [emitFields, emitStr, List.append_assoc, List.cons_append,
            List.singleton_append, List.nil_append]
          simp only [parseFields]
          rw [parseStrBody_esc]
          simp only [hV]
          split
          · rename_i heq
            simp [show ¬ rbrace = ',' from by decide] at heq
          · rename_i c r4 heq hne2
            have hc : c = rbrace := by injection hne2 with ha hb; exact ha.symm
            have hr : r4 = rest := by injection hne2 with ha hb; exact hb.symm
            subst hc
            subst hr
            simp [string_mk_data]
          · rename_i heq
            simp at heq
        | cons g gs =>
          rw [fuelFields_cons] at hfu
          have hv : fuelJ v ≤ f := by
            have h1 : fuelJ v ≤ max (fuelJ v) (fuelFields (g :: gs)) := le_max_left _ _
            omega
          have hgs : fuelFields (g :: gs) ≤ f := by
            have h1 : fuelFields (g :: gs) ≤ max (fuelJ v) (fuelFields (g :: gs)) :=
              le_max_right _ _
            omega
          have hV := ihV v (',' :: (emitFields (g :: gs) ++ rbrace :: rest)) hv
            (stopper_cons (by decide) _)
          have hF := ihF (g :: gs) rest (by simp) hgs
          simp only [emitFields, emitStr, List.append_assoc, List.cons_append,
            List.singleton_append, List.nil_append]
          simp only [parseFields]
          rw [parseStrBody_esc]
          simp only [hV]
          simp [string_mk_data, hF]

mutual

theorem fuelJ_le : ∀ j : Json, fuelJ j ≤ (emit j).length + 1
  | .null => by simp [fuelJ, emit]
  | .bool b => by cases b <;> simp [fuelJ, emit]
  | .num n => by simp [fuelJ]
  | .str s => by simp [fuelJ]
  | .arr xs => by
    have h := fuelItems_le xs
    simp only [fuelJ, emit, List.length_cons, List.length_append,
      List.length_singleton]
    omega
  | .obj fs => by
    have h := fuelFields_le fs
    simp only [fuelJ, emit, List.length_cons, List.length_append,
      List.length_singleton]
    omega

theorem fuelItems_le : ∀ xs : List Json, fuelItems xs ≤ (emitItems xs).length + 2
  | [] => by simp [fuelItems, emitItems]
  | [x] => by
    have h := fuelJ_le x
    simp only [fuelItems, emitItems]
    omega
  | x :: y :: ys => by
    have h1 := fuelJ_le x
    have h2 := fuelItems_le (y :: ys)
    rw [fuelItems_cons]
    simp only [emitItems, List.length_append, List.length_cons]
    omega

theorem fuelFields_le : ∀ fs : List (String × Json), fuelFields fs ≤ (emitFields fs).length + 2
  | [] => by simp [fuelFields, emitFields]
  | [(k, v)] => by
    have h := fuelJ_le v
    simp only [fuelFields, emitFields, List.length_append, List.length_cons]
    omega
  | (k, v) :: g :: gs => by
    have h1 := fuelJ_le v
    have h2 := fuelFields_le (g :: gs)
    rw [fuelFields_cons]
    simp only [emitFields, List.length_append, List.length_cons]
    omega

end

/-- The metadata round trip: parsing the serialized text of any JSON value
gives back the value. -/
theorem parseJson_stringify (j : Json) : parseJson (stringify j) = some j := by
  have h := (parse_emit ((emit j).length + 1)).1 j []
    (fuelJ_le j) (by intro c hc; simp at hc)
  rw [List.append_nil] at h
  simp only [parseJson, stringify]
  rw [h]

theorem stringify_obj_ne_empty (o : JsonObj) : stringify (Json.obj o) ≠ "" := by
  intro h
  have h2 := congrArg String.data h
  simp [stringify, emit] at h2

/-! ## SQL LIKE (as used by `LOWER(login) LIKE ?`) -/

/-- SQLite `LIKE`: `%` matches any run, `_` any one character, other
characters match ASCII case-insensitively.  Fuel-indexed; each step shrinks
`pattern.length + text.length`, so the wrapper's fuel always suffices. -/
def likeFuel : Nat → List Char → List Char → Bool
  | 0, _, _ => false
  | _ + 1, [], ts => ts.isEmpty
  | fuel + 1, p :: ps, ts =>
    if p == '%' then
      likeFuel fuel ps ts ||
        (match ts with
         | [] => false
         | _ :: ts2 => likeFuel fuel (p :: ps) ts2)
    else
      match ts with
      | [] => false
      | c :: ts2 =>
        if p == '_' then likeFuel fuel ps ts2
        else p.toLower == c.toLower && likeFuel fuel ps ts2

def likeStr (pattern text : String) : Bool :=
  likeFuel (pattern.data.length + text.data.length + 1) pattern.data text.data

/-! ## Stable descending sort (`ORDER BY <key> DESC`)

SQLite does not specify the relative order of rows with equal keys; the
model keeps them in rowid (insertion) order, mirroring the rowid-order
table scan that feeds the sorter. -/

def insertDesc (key : α → Int) (a : α) (l : List α) : List α :=
  match l with
  | [] => [a]
  | b :: rest => if key b < key a then a :: b :: rest else b :: insertDesc key a rest

def sortDesc (key : α → Int) (l : List α) : List α :=
  l.foldl (fun acc a => insertDesc key a acc) []

/-! ## Rows, database state, and timestamp keys -/

structure UserRow where
  id : Int
  name : String
  login : String
  password_hash : String
  role : String
  deriving DecidableEq, Repr

structure Profile where
  id : Int
  name : String
  login : String
  role : String
  deriving DecidableEq, Repr

def UserRow.profile (u : UserRow) : Profile := ⟨u.id, u.name, u.login, u.role⟩

structure StorageUnit where
  id : Int
  label : String
  type : String
  section' : Option String
  capacity : Int
  occupancy : Int
  metadata : Option String
  created_at : Int
  updated_at : Int
  deriving DecidableEq, Repr

/-- A storage-unit row as returned to callers: `metadata` deserialized. -/
structure StorageUnitRecord where
  id : Int
  label : String
  type : String
  section' : Option String
  capacity : Int
  occupancy : Int
  metadata : Option Json
  created_at : Int
  updated_at : Int

structure Movement where
  id : Int
  reference : Option String
  item_label : Option String
  from_unit : Option String
  to_unit : Option String
  action : String
  note : Option String
  actor : String
  created_at : Int
  deriving DecidableEq, Repr

structure DbState where
  users : List UserRow
  units : List StorageUnit
  movements : List Movement
  nextUnitId : Int
  nextMovementId : Int
  deriving DecidableEq, Repr

/-- `datetime(created_at)` drops the ISO string's milliseconds: the sort
key is the second-truncated timestamp. -/
def secKey (ms : Int) : Int := ms / 1000

/-- `DATE(created_at)` / `DATE('now')`: the UTC calendar day. -/
def utcDay (ms : Int) : Int := ms / 86400000

/-! ## Credential store and authenticator (`database.ts`) -/

/-- ASCII case fold: models both JS `toLowerCase` and SQLite `LOWER`
(they agree on the ASCII range; logins here are ASCII). -/
def lowerStr (s : String) : String := String.mk (s.data.map Char.toLower)

def isSpaceChar (c : Char) : Bool := c.toNat ≤ 32

/-- JS `String.prototype.trim` (ASCII whitespace model). -/
def trimStr (s : String) : String :=
  String.mk (((s.data.dropWhile isSpaceChar).reverse.dropWhile isSpaceChar).reverse)

/-- `login.trim().toLowerCase()`. -/
def normalizeLogin (login : String) : String := lowerStr (trimStr login)

/-- `normalized.includes('@')`. -/
def hasAtSign (s : String) : Bool := s.data.any (fun c => c == '@')

/-- `normalized.split('@')[0]`. -/
def beforeAt (s : String) : String := String.mk (s.data.takeWhile (fun c => !(c == '@')))

/-- `ArchiveDatabase.verifyLogin`.  `cmp` stands for `bcrypt.compare`
(password against stored hash); SQL `LIMIT 1` lookups become `find?` over
the rows in rowid order. -/
def verifyLogin (cmp : String → String → Bool) (users : List UserRow)
    (login password : String) : Option Profile :=
  let normalized := normalizeLogin login
  if normalized = "" then none
  else
    let base := if hasAtSign normalized then beforeAt normalized else normalized
    let user0 := users.find? (fun u => lowerStr u.login == normalized)
    let user1 :=
      if user0.isNone && base != normalized then
        users.find? (fun u => lowerStr u.login == base)
      else user0
    let user2 :=
      if user1.isNone && !(hasAtSign normalized) then
        users.find? (fun u => likeStr (base ++ "@%") (lowerStr u.login))
      else user1
    match user2 with
    | none => none
    | some u => if cmp password u.password_hash then some u.profile else none

/-- `ArchiveDatabase.ensureDefaultAdmin`.  `hashed` stands for the
`bcrypt.hash` of the supplied password, `newId` for the autoincrement id
an insert would receive. -/
def ensureDefaultAdmin (hashed : String) (users : List UserRow) (login : String)
    (newId : Int) : List UserRow :=
  let normalized := normalizeLogin login
  match users.find? (fun u =>
      lowerStr u.login == normalized || likeStr (normalized ++ "@%") (lowerStr u.login)) with
  | none => users ++ [⟨newId, "Administrador", normalized, hashed, "admin"⟩]
  | some u => users.map (fun v =>
      if v.id == u.id then { v with login := normalized, password_hash := hashed } else v)

/-! ## Storage ledger and movement log (`database.ts`) -/

structure StoragePayloadM where
  label : String
  type : String
  section' : Option String
  capacity : Option Int
  metadata : Option JsonObj

/-- `row.metadata ? JSON.parse(row.metadata) : null` — `null` and the empty
string are falsy.  (A parse error would throw; the strings this module
writes always parse.) -/
def readMetadata : Option String → Option Json
  | none => none
  | some s => if s = "" then none else parseJson s

def rowToRecord (u : StorageUnit) : StorageUnitRecord :=
  ⟨u.id, u.label, u.type, u.section', u.capacity, u.occupancy,
    readMetadata u.metadata, u.created_at, u.updated_at⟩

/-- `ArchiveDatabase.createStorageUnit`: `payload.metadata` is a JS object
when present (hence truthy), serialized with `JSON.stringify`; the inserted
row is re-selected and deserialized. -/
def createStorageUnit (db : DbState) (p : StoragePayloadM) (now : Int) :
    DbState × StorageUnitRecord :=
  let stored := p.metadata.map (fun o => stringify (Json.obj o))
  let u : StorageUnit :=
    ⟨db.nextUnitId, trimStr p.label, p.type, p.section', p.capacity.getD 0, 0, stored, now, now⟩
  ({ db with units := db.units ++ [u], nextUnitId := db.nextUnitId + 1 }, rowToRecord u)

/-- `ArchiveDatabase.listStorageUnits`: `ORDER BY updated_at DESC` (full
ISO text order = chronological order). -/
def listStorageUnits (db : DbState) : List StorageUnitRecord :=
  (sortDesc (fun u => u.updated_at) db.units).map rowToRecord

structure MovementInsert where
  reference : Option String
  item_label : Option String
  from_unit : Option String
  to_unit : Option String
  action : String
  note : Option String
  actor : String

/-- `ArchiveDatabase.recordMovement`. -/
def recordMovement (db : DbState) (p : MovementInsert) (now : Int) : DbState × Movement :=
  let m : Movement := ⟨db.nextMovementId, p.reference, p.item_label, p.from_unit,
    p.to_unit, p.action, p.note, p.actor, now⟩
  ({ db with movements := db.movements ++ [m], nextMovementId := db.nextMovementId + 1 }, m)

/-- `ArchiveDatabase.listMovements`: `ORDER BY datetime(created_at) DESC
LIMIT ?`. -/
def listMovements (db : DbState) (limit : Nat) : List Movement :=
  (sortDesc (fun m => secKey m.created_at) db.movements).take limit

/-! ## Snapshot aggregator (`database.ts`) -/

structure UnitsByType where
  pasta : Nat
  envelope : Nat
  gaveteiro : Nat
  caixa : Nat
  deriving DecidableEq, Repr

/-- One row of `SELECT type, COUNT(1) ... GROUP BY type`: bump the type's
counter, appending a new group on first sight. -/
def bump (t : String) : List (String × Nat) → List (String × Nat)
  | [] => [(t, 1)]
  | (k, n) :: rest => if k = t then (k, n + 1) :: rest else (k, n) :: bump t rest

def groupCounts (units : List StorageUnit) : List (String × Nat) :=
  units.foldl (fun acc u => bump u.type acc) []

/-- `if (kind in template) template[kind] = row.total`. -/
def applyCounter (t : UnitsByType) (kv : String × Nat) : UnitsByType :=
  if kv.1 = "PASTA" then { t with pasta := kv.2 }
  else if kv.1 = "ENVELOPE" then { t with envelope := kv.2 }
  else if kv.1 = "GAVETEIRO" then { t with gaveteiro := kv.2 }
  else if kv.1 = "CAIXA" then { t with caixa := kv.2 }
  else t

structure Snapshot where
  totalUnits : Nat
  unitsByType : UnitsByType
  movementsToday : Nat
  lastMovement : Option Movement
  deriving DecidableEq, Repr

/-- `ArchiveDatabase.snapshot`. -/
def snapshot (db : DbState) (now : Int) : Snapshot :=
  let tpl := (groupCounts db.units).foldl applyCounter ⟨0, 0, 0, 0⟩
  { totalUnits := tpl.pasta + tpl.envelope + tpl.gaveteiro + tpl.caixa
    unitsByType := tpl
    movementsToday :=
      (db.movements.filter (fun m => utcDay m.created_at == utcDay now)).length
    lastMovement := (sortDesc (fun m => secKey m.created_at) db.movements).head? }

/-- Modelled from the spec: the "local today boundary" — the calendar day
of an instant in a timezone `offsetMin` minutes ahead of UTC.  (The source
has no local-time handling; `toISOString` and `DATE('now')` are both UTC.) -/
def localDay (offsetMin : Int) (ms : Int) : Int :=
  (ms + offsetMin * 60000) / 86400000

/-! ## Schema migrator (`migrate` / `ensureLoginColumn`) -/

structure Schema where
  users : Option (List String)
  storage_units : Option (List String)
  movements : Option (List String)
  deriving DecidableEq, Repr

def usersColumns : List String :=
  ["id", "name", "login", "password_hash", "role", "created_at"]

def storageUnitsColumns : List String :=
  ["id", "label", "type", "section", "capacity", "occupancy", "metadata",
   "created_at", "updated_at"]

def movementsColumns : List String :=
  ["id", "reference", "item_label", "from_unit", "to_unit", "action", "note",
   "actor", "created_at"]

/-- `CREATE TABLE IF NOT EXISTS`. -/
def createIfAbsent (t : Option (List String)) (cols : List String) : Option (List String) :=
  match t with
  | none => some cols
  | some existing => some existing

/-- `ArchiveDatabase.ensureLoginColumn`: introspect `users` columns
(`PRAGMA table_info`; an absent table reports none) and rename
`email` to `login` when `login` is absent and `email` present.  The flag
reports whether the rename ran. -/
def ensureLoginColumn (s : Schema) : Schema × Bool :=
  let columns := s.users.getD []
  let hasLogin := columns.any (fun c => c == "login")
  let hasEmail := columns.any (fun c => c == "email")
  if !hasLogin && hasEmail then
    ({ s with users := s.users.map (fun cols =>
        cols.map (fun c => if c = "email" then "login" else c)) }, true)
  else (s, false)

/-- `ArchiveDatabase.migrate`: the three `CREATE TABLE IF NOT EXISTS`
statements in order, then the legacy-column repair. -/
def migrate (s : Schema) : Schema × Bool :=
  let s1 : Schema :=
    { users := createIfAbsent s.users usersColumns
      storage_units := createIfAbsent s.storage_units storageUnitsColumns
      movements := createIfAbsent s.movements movementsColumns }
  ensureLoginColumn s1

/-! ## Session store (`sessions.ts`) and IPC handlers (`main.ts`) -/

structure Session where
  token : String
  profile : Profile
  issuedAt : Int
  deriving DecidableEq, Repr

abbrev SessionMap := List (String × Session)

/-- JS `Map.set`: replace in place, else append (insertion order kept). -/
def mapSet : SessionMap → String → Session → SessionMap
  | [], k, s => [(k, s)]
  | (k2, s2) :: rest, k, s =>
    if k2 = k then (k, s) :: rest else (k2, s2) :: mapSet rest k s

def mapGet (m : SessionMap) (k : String) : Option Session :=
  (m.find? (fun kv => kv.1 == k)).map (fun kv => kv.2)

/-- JS `Map.delete`; a JS map's keys are unique, so removing every entry
with the key is observationally the same. -/
def mapDelete (m : SessionMap) (k : String) : SessionMap :=
  m.filter (fun kv => !(kv.1 == k))

/-- `SessionStore.create`; `freshTok` stands for `crypto.randomUUID()`. -/
def sessionsCreate (m : SessionMap) (profile : Profile) (freshTok : String)
    (now : Int) : Session × SessionMap :=
  let s : Session := ⟨freshTok, profile, now⟩
  (s, mapSet m freshTok s)

/-- `SessionStore.get`: `if (!token) return undefined` — the empty string
is the only falsy string. -/
def sessionsGet (m : SessionMap) (token : String) : Option Session :=
  if token = "" then none else mapGet m token

/-- `SessionStore.require`. -/
def sessionsRequire (m : SessionMap) (token : String) : Except String Session :=
  match sessionsGet m token with
  | none => Except.error "Sessão inválida. Faça login novamente."
  | some s => Except.ok s

structure AppState where
  db : DbState
  sessions : SessionMap
  deriving DecidableEq, Repr

structure LoginData where
  token : String
  profile : Profile
  snap : Snapshot
  deriving DecidableEq, Repr

/-- `auth:login` handler: zod validation, `verifyLogin`, session creation,
fresh snapshot. -/
def authLogin (cmp : String → String → Bool) (st : AppState)
    (login password freshTok : String) (now : Int) :
    Except String LoginData × AppState :=
  if login.length < 3 || password.length < 4 then
    (Except.error (String.intercalate ", "
      ((if login.length < 3 then ["Informe o usuário"] else []) ++
       (if password.length < 4 then ["Senha inválida"] else []))), st)
  else
    match verifyLogin cmp st.db.users login password with
    | none => (Except.error "Credenciais inválidas", st)
    | some prof =>
      let created := sessionsCreate st.sessions prof freshTok now
      let st2 := { st with sessions := created.2 }
      (Except.ok ⟨created.1.token, created.1.profile, snapshot st2.db now⟩, st2)

/-- `auth:session` handler: token shape check (min length 10), `require`,
fresh snapshot. -/
def authSession (st : AppState) (token : String) (now : Int) :
    Except String LoginData :=
  if token.length < 10 then Except.error "Sessão inválida"
  else
    match sessionsRequire st.sessions token with
    | Except.error e => Except.error e
    | Except.ok sess => Except.ok ⟨sess.token, sess.profile, snapshot st.db now⟩

/-- `auth:logout` handler: revoke when the payload parses. -/
def authLogout (st : AppState) (token : String) : AppState :=
  if token.length < 10 then st
  else { st with sessions := mapDelete st.sessions token }

def storageTypes : List String := ["PASTA", "ENVELOPE", "GAVETEIRO", "CAIXA"]

/-- The raw `storage:create` payload before zod validation. -/
structure RawStoragePayload where
  label : String
  type : String
  section' : Option String
  capacity : Option Int
  metadata : Option JsonObj

/-- `storageSchema`: label min 2, enum type, optional section min 2,
optional nonnegative integer capacity (defaulted to 0), optional record
metadata. -/
def storageValidate (p : RawStoragePayload) : Bool :=
  decide (2 ≤ p.label.length) && storageTypes.contains p.type &&
    (match p.section' with | none => true | some s => decide (2 ≤ s.length)) &&
    (match p.capacity with | none => true | some c => decide (0 ≤ c))

/-- `storage:create` handler: validate, `require`, create the unit, append
the audit movement, fresh snapshot. -/
def storageCreate (st : AppState) (token : String) (p : RawStoragePayload)
    (now : Int) : Except String (StorageUnitRecord × Snapshot) × AppState :=
  if token.length < 10 || !(storageValidate p) then
    (Except.error "Dados inválidos", st)
  else
    match sessionsRequire st.sessions token with
    | Except.error e => (Except.error e, st)
    | Except.ok sess =>
      let payload : StoragePayloadM :=
        ⟨p.label, p.type, p.section', some (p.capacity.getD 0), p.metadata⟩
      let step1 := createStorageUnit st.db payload now
      let step2 := recordMovement step1.1
        ⟨none, none, none, none, "Cadastro de unidade",
          some ("Unidade " ++ p.label ++ " criada"), sess.profile.name⟩ now
      (Except.ok (step1.2, snapshot step2.1 now), { st with db := step2.1 })

/-- The raw `movements:record` payload; a caller may inject an `actor`
field, which `movementSchema` strips. -/
structure RawMovementPayload where
  action : String
  reference : Option String
  item_label : Option String
  from_unit : Option String
  to_unit : Option String
  note : Option String
  actor : Option String

/-- `movements:record` handler: validate (`action` min 3), `require`,
record with the session's profile name as `actor`, fresh snapshot. -/
def movementsRecord (st : AppState) (token : String) (p : RawMovementPayload)
    (now : Int) : Except String (Movement × Snapshot) × AppState :=
  if token.length < 10 || p.action.length < 3 then
    (Except.error "Descreva a movimentação", st)
  else
    match sessionsRequire st.sessions token with
    | Except.error e => (Except.error e, st)
    | Except.ok sess =>
      let step := recordMovement st.db
        ⟨p.reference, p.item_label, p.from_unit, p.to_unit, p.action, p.note,
          sess.profile.name⟩ now
      (Except.ok (step.2, snapshot step.1 now), { st with db := step.1 })

/-- `movements:list` handler (default limit 25). -/
def movementsListHandler (st : AppState) (token : String) : Except String (List Movement) :=
  if token.length < 10 then Except.error "Sessão inválida"
  else
    match sessionsRequire st.sessions token with
    | Except.error e => Except.error e
    | Except.ok _ => Except.ok (listMovements st.db 25)

/-- `storage:list` handler. -/
def storageListHandler (st : AppState) (token : String) :
    Except String (List StorageUnitRecord) :=
  if token.length < 10 then Except.error "Sessão inválida"
  else
    match sessionsRequire st.sessions token with
    | Except.error e => Except.error e
    | Except.ok _ => Except.ok (listStorageUnits st.db)

/-! ## Properties of the descending sort -/

theorem insertDesc_perm (key : α → Int) (a : α) (l : List α) :
    List.Perm (insertDesc key a l) (a :: l) := by
  induction l with
  | nil => simp [insertDesc]
  | cons b l ih =>
    simp only [insertDesc]
    split
    · exact List.Perm.refl _
    · exact (ih.cons b).trans (List.Perm.swap a b l)

theorem sortDesc_perm (key : α → Int) (l : List α) : List.Perm (sortDesc key l) l := by
  suffices h : ∀ acc, List.Perm
      (List.foldl (fun acc a => insertDesc key a acc) acc l) (l ++ acc) by
    simpa [sortDesc] using h []
  induction l with
  | nil => intro acc; simp
  | cons x l ih =>
    intro acc
    simp only [List.foldl_cons]
    have h1 := ih (insertDesc key x acc)
    have h2 : List.Perm (l ++ insertDesc key x acc) (l ++ (x :: acc)) :=
      List.Perm.append_left l (insertDesc_perm key x acc)
    have h3 : List.Perm (l ++ (x :: acc)) (x :: (l ++ acc)) := List.perm_middle
    exact h1.trans (h2.trans h3)

theorem insertDesc_sorted (key : α → Int) (a : α) (l : List α)
    (h : l.Pairwise (fun x y => key y ≤ key x)) :
    (insertDesc key a l).Pairwise (fun x y => key y ≤ key x) := by
  induction l with
  | nil => simp [insertDesc]
  | cons b l ih =>
    rw [List.pairwise_cons] at h
    simp only [insertDesc]
    split
    · rename_i hlt
      refine List.Pairwise.cons ?_ (List.pairwise_cons.mpr h)
      intro y hy
      rcases List.mem_cons.mp hy with rfl | hy2
      · exact le_of_lt hlt
      · exact le_trans (h.1 y hy2) (le_of_lt hlt)
    · rename_i hge
      refine List.Pairwise.cons ?_ (ih h.2)
      intro y hy
      rcases List.mem_cons.mp ((insertDesc_perm key a l).mem_iff.mp hy) with rfl | hy2
      · omega
      · exact h.1 y hy2

theorem sortDesc_sorted (key : α → Int) (l : List α) :
    (sortDesc key l).Pairwise (fun x y => key y ≤ key x) := by
  suffices h : ∀ acc, acc.Pairwise (fun x y => key y ≤ key x) →
      (List.foldl (fun acc a => insertDesc key a acc) acc l).Pairwise
        (fun x y => key y ≤ key x) by
    exact h [] (by simp)
  induction l with
  | nil => intro acc hacc; simpa [sortDesc] using hacc
  | cons x l ih =>
    intro acc hacc
    simp only [List.foldl_cons]
    exact ih _ (insertDesc_sorted key x acc hacc)

theorem insertDesc_front (key : α → Int) (a : α) (l : List α)
    (h : ∀ b ∈ l, key b < key a) : insertDesc key a l = a :: l := by
  cases l with
  | nil => simp [insertDesc]
  | cons b l => simp [insertDesc, h b (List.mem_cons_self b l)]

theorem sortDesc_foldl_strict (key : α → Int) : ∀ (l acc : List α),
    l.Pairwise (fun x y => key x < key y) →
    (∀ b ∈ acc, ∀ x ∈ l, key b < key x) →
    List.foldl (fun acc a => insertDesc key a acc) acc l = l.reverse ++ acc := by
  intro l
  induction l with
  | nil => intro acc _ _; simp
  | cons x l ih =>
    intro acc hp hacc
    rw [List.pairwise_cons] at hp
    simp only [List.foldl_cons]
    rw [insertDesc_front key x acc (fun b hb => hacc b hb x (List.mem_cons_self x l))]
    rw [ih (x :: acc) hp.2 ?_]
    · simp
    · intro b hb y hy
      rcases List.mem_cons.mp hb with rfl | hb2
      · exact hp.1 y hy
      · exact hacc b hb2 y (List.mem_cons_of_mem x hy)

/-- On a strictly increasing input the descending sort is exactly the
reversal. -/
theorem sortDesc_of_strict (key : α → Int) (l : List α)
    (h : l.Pairwise (fun x y => key x < key y)) :
    sortDesc key l = l.reverse := by
  simpa [sortDesc] using sortDesc_foldl_strict key l [] h (by simp)

/-! ## C8: migrator idempotence -/

theorem any_beq_iff (cols : List String) (t : String) :
    (cols.any (fun c => c == t)) = true ↔ t ∈ cols := by
  simp [List.any_eq_true]

theorem createIfAbsent_none (cols : List String) :
    createIfAbsent none cols = some cols := rfl

theorem createIfAbsent_some (l cols : List String) :
    createIfAbsent (some l) cols = some l := rfl

theorem createIfAbsent_idem (t : Option (List String)) (cols : List String) :
    createIfAbsent (createIfAbsent t cols) cols = createIfAbsent t cols := by
  cases t <;> rfl

/-- C8 (confirmed): a second `migrate` run on any schema the first produced
changes nothing and never renames again; the rename fires exactly when the
original schema has a `users` table with an `email` column and no `login`
column. -/
theorem migrate_idempotent_c8 (s : Schema) :
    migrate (migrate s).1 = ((migrate s).1, false) ∧
    ((migrate s).2 = true ↔
      ∃ cols, s.users = some cols ∧ "email" ∈ cols ∧ "login" ∉ cols) := by
  cases hu : s.users with
  | none =>
    constructor
    · simp [migrate, ensureLoginColumn, usersColumns, hu, createIfAbsent_none, createIfAbsent_some, createIfAbsent_idem]
    · simp [migrate, ensureLoginColumn, usersColumns, hu, createIfAbsent_none, createIfAbsent_some, createIfAbsent_idem]
  | some cols =>
    by_cases hl : "login" ∈ cols
    · have h1 : (cols.any (fun c => c == "login")) = true := (any_beq_iff _ _).mpr hl
      constructor
      · simp [migrate, ensureLoginColumn, hu, h1, createIfAbsent_none, createIfAbsent_some, createIfAbsent_idem]
      · simp [migrate, ensureLoginColumn, hu, h1, hl, createIfAbsent_none, createIfAbsent_some, createIfAbsent_idem]
    · have h1 : (cols.any (fun c => c == "login")) = false := by
        rw [← Bool.not_eq_true]
        intro hc
        exact hl ((any_beq_iff _ _).mp hc)
      by_cases he : "email" ∈ cols
      · have h2 : (cols.any (fun c => c == "email")) = true := (any_beq_iff _ _).mpr he
        have hren : "login" ∈ cols.map (fun c => if c = "email" then "login" else c) :=
          List.mem_map.mpr ⟨"email", he, by simp⟩
        have h3 : ((cols.map (fun c => if c = "email" then "login" else c)).any
            (fun c => c == "login")) = true := (any_beq_iff _ _).mpr hren
        constructor
        · simp [migrate, ensureLoginColumn, hu, h1, h2, h3, createIfAbsent_none, createIfAbsent_some, createIfAbsent_idem]
        · simp [migrate, ensureLoginColumn, hu, h1, h2, he, hl, createIfAbsent_none, createIfAbsent_some, createIfAbsent_idem]
      · have h2 : (cols.any (fun c => c == "email")) = false := by
          rw [← Bool.not_eq_true]
          intro hc
          exact he ((any_beq_iff _ _).mp hc)
        constructor
        · simp [migrate, ensureLoginColumn, hu, h1, h2, createIfAbsent_none, createIfAbsent_some, createIfAbsent_idem]
        · simp [migrate, ensureLoginColumn, hu, h1, h2, he, createIfAbsent_none, createIfAbsent_some, createIfAbsent_idem]

/-! ## C3: snapshot unit counters -/

def lookupCount (t : String) (l : List (String × Nat)) : Nat :=
  ((l.find? (fun kv => kv.1 == t)).map (fun kv => kv.2)).getD 0

theorem lookupCount_bump (t t' : String) (l : List (String × Nat)) :
    lookupCount t (bump t' l) = lookupCount t l + (if t = t' then 1 else 0) := by
  induction l with
  | nil =>
    by_cases h : t = t'
    · subst h; simp [bump, lookupCount]
    · have hb : (t' == t) = false := beq_eq_false_iff_ne.mpr (fun hc => h hc.symm)
      simp [bump, lookupCount, h, hb]
  | cons kv l ih =>
    obtain ⟨k, n⟩ := kv
    by_cases hk : k = t'
    · subst hk
      by_cases ht : t = k
      · subst ht; simp [bump, lookupCount]
      · have hb : (k == t) = false := beq_eq_false_iff_ne.mpr (fun hc => ht hc.symm)
        simp [bump, lookupCount, ht, hb, List.find?_cons]
    · by_cases ht : k = t
      · have hneq : ¬ t = t' := fun hc => hk (ht.trans hc)
        have hbt : (k == t) = true := by simp [ht]
        simp [bump, if_neg hk, lookupCount, List.find?_cons, hbt, hneq]
      · have hb : (k == t) = false := beq_eq_false_iff_ne.mpr ht
        simp only [bump, if_neg hk]
        have e1 : lookupCount t ((k, n) :: bump t' l) = lookupCount t (bump t' l) := by
          simp [lookupCount, List.find?_cons, hb]
        have e2 : lookupCount t ((k, n) :: l) = lookupCount t l := by
          simp [lookupCount, List.find?_cons, hb]
        rw [e1, e2, ih]

theorem lookupCount_foldl (units : List StorageUnit) : ∀ (acc : List (String × Nat)) (t : String),
    lookupCount t (units.foldl (fun a u => bump u.type a) acc) =
      lookupCount t acc + (units.filter (fun u => u.type == t)).length := by
  induction units with
  | nil => intro acc t; simp
  | cons u units ih =>
    intro acc t
    simp only [List.foldl_cons]
    rw [ih, lookupCount_bump]
    by_cases h : t = u.type
    · have hb : (u.type == t) = true := by simp [h]
      simp [List.filter_cons, hb, h]
      omega
    · have hb : (u.type == t) = false := beq_eq_false_iff_ne.mpr (fun hc => h hc.symm)
      simp [List.filter_cons, hb, h]

theorem lookupCount_groupCounts (units : List StorageUnit) (t : String) :
    lookupCount t (groupCounts units) =
      (units.filter (fun u => u.type == t)).length := by
  have h := lookupCount_foldl units [] t
  simpa [groupCounts, lookupCount] using h

theorem keys_bump_subset (t : String) (l : List (String × Nat)) :
    (bump t l).map Prod.fst ⊆ t :: l.map Prod.fst := by
  induction l with
  | nil => simp [bump]
  | cons kv l ih =>
    obtain ⟨k, n⟩ := kv
    by_cases hk : k = t
    · simp [bump, hk]
    · simp only [bump, if_neg hk, List.map_cons]
      intro a ha
      rcases List.mem_cons.mp ha with rfl | ha2
      · simp
      · rcases List.mem_cons.mp (ih ha2) with rfl | ha3
        · simp
        · simp [ha3]

theorem keys_bump_nodup (t : String) (l : List (String × Nat))
    (h : (l.map Prod.fst).Nodup) : ((bump t l).map Prod.fst).Nodup := by
  induction l with
  | nil => simp [bump]
  | cons kv l ih =>
    obtain ⟨k, n⟩ := kv
    simp only [List.map_cons, List.nodup_cons] at h
    by_cases hk : k = t
    · simp only [bump, if_pos hk, List.map_cons, List.nodup_cons]
      exact h
    · simp only [bump, if_neg hk, List.map_cons, List.nodup_cons]
      constructor
      · intro hc
        rcases List.mem_cons.mp (keys_bump_subset t l hc) with rfl | hc2
        · exact hk rfl
        · exact h.1 hc2
      · exact ih h.2

theorem keys_groupCounts_nodup (units : List StorageUnit) :
    ((groupCounts units).map Prod.fst).Nodup := by
  suffices h : ∀ acc : List (String × Nat), (acc.map Prod.fst).Nodup →
      ((units.foldl (fun a u => bump u.type a) acc).map Prod.fst).Nodup by
    exact h [] (by simp)
  induction units with
  | nil => intro acc hacc; simpa using hacc
  | cons u units ih =>
    intro acc hacc
    simp only [List.foldl_cons]
    exact ih _ (keys_bump_nodup u.type acc hacc)

theorem foldl_applyCounter_get
    (get : UnitsByType → Nat) (name : String)
    (hget : ∀ t kv, get (applyCounter t kv) = if kv.1 = name then kv.2 else get t) :
    ∀ (counters : List (String × Nat)) (t0 : UnitsByType),
      (counters.map Prod.fst).Nodup →
      get (counters.foldl applyCounter t0) =
        ((counters.find? (fun kv => kv.1 == name)).map (fun kv => kv.2)).getD (get t0) := by
  intro counters
  induction counters with
  | nil => intro t0 _; simp
  | cons kv l ih =>
    intro t0 hnd
    obtain ⟨k, n⟩ := kv
    simp only [List.map_cons, List.nodup_cons] at hnd
    simp only [List.foldl_cons]
    rw [ih _ hnd.2]
    by_cases hk : k = name
    · subst hk
      have hfind : l.find? (fun kv => kv.1 == k) = none := by
        rw [List.find?_eq_none]
        intro kv hkv
        simp only [beq_iff_eq]
        intro hc
        exact hnd.1 (List.mem_map.mpr ⟨kv, hkv, hc⟩)
      simp [hfind, hget, List.find?_cons]
    · have hget2 := hget t0 (k, n)
      simp only [if_neg hk] at hget2
      simp [List.find?_cons, hk, hget2]

theorem applyCounter_pasta (t : UnitsByType) (kv : String × Nat) :
    (applyCounter t kv).pasta = if kv.1 = "PASTA" then kv.2 else t.pasta := by
  unfold applyCounter
  split_ifs with h1 h2 h3 h4 <;> simp_all

theorem applyCounter_envelope (t : UnitsByType) (kv : String × Nat) :
    (applyCounter t kv).envelope = if kv.1 = "ENVELOPE" then kv.2 else t.envelope := by
  unfold applyCounter
  split_ifs with h1 h2 h3 h4 <;> simp_all

theorem applyCounter_gaveteiro (t : UnitsByType) (kv : String × Nat) :
    (applyCounter t kv).gaveteiro = if kv.1 = "GAVETEIRO" then kv.2 else t.gaveteiro := by
  unfold applyCounter
  split_ifs with h1 h2 h3 h4 <;> simp_all

theorem applyCounter_caixa (t : UnitsByType) (kv : String × Nat) :
    (applyCounter t kv).caixa = if kv.1 = "CAIXA" then kv.2 else t.caixa := by
  unfold applyCounter
  split_ifs with h1 h2 h3 h4 <;> simp_all

theorem unitsByType_eq_of_fields {a b : UnitsByType}
    (h1 : a.pasta = b.pasta) (h2 : a.envelope = b.envelope)
    (h3 : a.gaveteiro = b.gaveteiro) (h4 : a.caixa = b.caixa) : a = b := by
  cases a; cases b; simp_all

theorem unitsByType_counts (db : DbState) (now : Int) :
    (snapshot db now).unitsByType =
      ⟨(db.units.filter (fun u => u.type == "PASTA")).length,
       (db.units.filter (fun u => u.type == "ENVELOPE")).length,
       (db.units.filter (fun u => u.type == "GAVETEIRO")).length,
       (db.units.filter (fun u => u.type == "CAIXA")).length⟩ := by
  have hnd := keys_groupCounts_nodup db.units
  have hp := foldl_applyCounter_get (fun t => t.pasta) "PASTA" applyCounter_pasta
    (groupCounts db.units) ⟨0, 0, 0, 0⟩ hnd
  have he := foldl_applyCounter_get (fun t => t.envelope) "ENVELOPE" applyCounter_envelope
    (groupCounts db.units) ⟨0, 0, 0, 0⟩ hnd
  have hg := foldl_applyCounter_get (fun t => t.gaveteiro) "GAVETEIRO" applyCounter_gaveteiro
    (groupCounts db.units) ⟨0, 0, 0, 0⟩ hnd
  have hc := foldl_applyCounter_get (fun t => t.caixa) "CAIXA" applyCounter_caixa
    (groupCounts db.units) ⟨0, 0, 0, 0⟩ hnd
  have hp2 := lookupCount_groupCounts db.units "PASTA"
  have he2 := lookupCount_groupCounts db.units "ENVELOPE"
  have hg2 := lookupCount_groupCounts db.units "GAVETEIRO"
  have hc2 := lookupCount_groupCounts db.units "CAIXA"
  simp only [lookupCount] at hp2 he2 hg2 hc2
  have hfin : (snapshot db now).unitsByType =
      (groupCounts db.units).foldl applyCounter ⟨0, 0, 0, 0⟩ := by
    simp [snapshot]
  rw [hfin]
  apply unitsByType_eq_of_fields <;> simp_all

/-- C3 (confirmed): `snapshot().unitsByType` carries exactly the four enum
keys (the four fields of `UnitsByType`), each equal to the number of units
of that type (so zero when none exists), and `totalUnits` is their sum. -/
theorem c3_snapshot_counts (db : DbState) (now : Int) :
    ((snapshot db now).unitsByType.pasta
        = (db.units.filter (fun u => u.type == "PASTA")).length ∧
      (snapshot db now).unitsByType.envelope
        = (db.units.filter (fun u => u.type == "ENVELOPE")).length ∧
      (snapshot db now).unitsByType.gaveteiro
        = (db.units.filter (fun u => u.type == "GAVETEIRO")).length ∧
      (snapshot db now).unitsByType.caixa
        = (db.units.filter (fun u => u.type == "CAIXA")).length) ∧
    (snapshot db now).totalUnits =
      (snapshot db now).unitsByType.pasta + (snapshot db now).unitsByType.envelope +
      (snapshot db now).unitsByType.gaveteiro + (snapshot db now).unitsByType.caixa ∧
    ((snapshot db now).unitsByType.pasta = 0 ↔ ∀ u ∈ db.units, ¬ u.type = "PASTA") ∧
    ((snapshot db now).unitsByType.envelope = 0 ↔ ∀ u ∈ db.units, ¬ u.type = "ENVELOPE") ∧
    ((snapshot db now).unitsByType.gaveteiro = 0 ↔ ∀ u ∈ db.units, ¬ u.type = "GAVETEIRO") ∧
    ((snapshot db now).unitsByType.caixa = 0 ↔ ∀ u ∈ db.units, ¬ u.type = "CAIXA") := by
  have h := unitsByType_counts db now
  refine ⟨⟨by rw [h], by rw [h], by rw [h], by rw [h]⟩, ?_, ?_, ?_, ?_, ?_⟩
  · simp [snapshot]
  · rw [h]
    simp [List.length_eq_zero, List.filter_eq_nil_iff]
  · rw [h]
    simp [List.length_eq_zero, List.filter_eq_nil_iff]
  · rw [h]
    simp [List.length_eq_zero, List.filter_eq_nil_iff]
  · rw [h]
    simp [List.length_eq_zero, List.filter_eq_nil_iff]

/-! ## C2: movement listing -/

theorem head?_take {l : List α} {n : Nat} (h : 1 ≤ n) : (l.take n).head? = l.head? := by
  cases n with
  | zero => omega
  | succ m => cases l <;> simp

/-- C2 (corrected): `listMovements` returns at most `N` rows, ordered by
non-increasing second-truncated creation time; when the recorded timestamps
are chronological and no two movements share a second-truncated timestamp,
the order is strictly descending and the first row is the most recently
recorded movement. -/
theorem c2_listMovements (db : DbState) (N : Nat) :
    (listMovements db N).length ≤ N ∧
    (listMovements db N).Pairwise
      (fun a b => secKey b.created_at ≤ secKey a.created_at) ∧
    (db.movements.Pairwise (fun a b => a.created_at ≤ b.created_at) →
      db.movements.Pairwise (fun a b => secKey a.created_at ≠ secKey b.created_at) →
      ((listMovements db N).Pairwise
          (fun a b => secKey b.created_at < secKey a.created_at) ∧
        (1 ≤ N → (listMovements db N).head? = db.movements.getLast?))) := by
  refine ⟨?_, ?_, ?_⟩
  · simp [listMovements]
  · exact (sortDesc_sorted (fun m => secKey m.created_at) db.movements).sublist
      (List.take_sublist _ _)
  · intro hchron hdist
    have hstrict : db.movements.Pairwise
        (fun a b => secKey a.created_at < secKey b.created_at) := by
      have hboth := hchron.and hdist
      exact hboth.imp (fun hab =>
        lt_of_le_of_ne (Int.ediv_le_ediv (by omega) hab.1) hab.2)
    have hrev : sortDesc (fun m => secKey m.created_at) db.movements
        = db.movements.reverse := sortDesc_of_strict _ _ hstrict
    constructor
    · have hsorted : (db.movements.reverse).Pairwise
          (fun a b => secKey b.created_at < secKey a.created_at) := by
        rw [List.pairwise_reverse]
        exact hstrict
      simp only [listMovements, hrev]
      exact hsorted.sublist (List.take_sublist _ _)
    · intro hN
      simp only [listMovements, hrev, head?_take hN, List.head?_reverse]

def exC2pay1 : MovementInsert := ⟨none, none, none, none, "Guardar caixa", none, "Ana"⟩

def exC2pay2 : MovementInsert := ⟨none, none, none, none, "Retirar pasta", none, "Ana"⟩

/-- Two movements recorded 0.5s apart, inside the same wall-clock second. -/
def exC2db : DbState :=
  (recordMovement (recordMovement ⟨[], [], [], 1, 1⟩ exC2pay1 1000).1 exC2pay2 1500).1

def exC2a : Movement :=
  ⟨1, none, none, none, none, "Guardar caixa", none, "Ana", 1000⟩

def exC2b : Movement :=
  ⟨2, none, none, none, none, "Retirar pasta", none, "Ana", 1500⟩

/-- C2 counterexample: with two movements recorded inside the same second,
`movements.list` puts the older one first (`datetime(created_at)` drops the
milliseconds), so the first element is not the most recently recorded
movement and the order is not strictly descending. -/
theorem c2_cex :
    exC2db.movements = [exC2a, exC2b] ∧
    exC2a.created_at < exC2b.created_at ∧
    exC2db.movements.getLast? = some exC2b ∧
    (listMovements exC2db 25).head? = some exC2a ∧
    exC2a ≠ exC2b ∧
    ¬ (listMovements exC2db 25).Pairwise
        (fun a b => secKey b.created_at < secKey a.created_at) := by
  decide

/-- Two movements with distinct second-truncated timestamps. -/
def exC2w : DbState :=
  (recordMovement (recordMovement ⟨[], [], [], 1, 1⟩ exC2pay1 1000).1 exC2pay2 2500).1

theorem c2_witness : (listMovements exC2w 25).head? = exC2w.movements.getLast? := by
  have h := (c2_listMovements exC2w 25).2.2 (by decide) (by decide)
  exact h.2 (by decide)

/-! ## C4: movementsToday -/

/-- C4 (corrected): `movementsToday` counts exactly the movements whose UTC
calendar date equals the UTC date of the call instant (both sides of the
comparison are UTC, not local); a movement from an earlier UTC day is never
counted, but one recorded on the previous *local* day can be (`c4_cex`). -/
theorem c4_movementsToday (db : DbState) (now : Int) :
    (snapshot db now).movementsToday =
      (db.movements.filter (fun m => utcDay m.created_at == utcDay now)).length ∧
    ((∀ m ∈ db.movements, utcDay m.created_at < utcDay now) →
      (snapshot db now).movementsToday = 0) := by
  constructor
  · simp [snapshot]
  · intro h
    simp only [snapshot, List.length_eq_zero, List.filter_eq_nil_iff]
    intro m hm
    have := h m hm
    simp only [beq_iff_eq]
    omega

/-- In a UTC-3 timezone: recorded 22:00 local on day 1 (= 01:00 UTC, day 2). -/
def exC4m : Movement :=
  ⟨1, none, none, none, none, "Guardar caixa", none, "Ana", 2 * 86400000 + 3600000⟩

def exC4db : DbState := ⟨[], [], [exC4m], 1, 2⟩

/-- Snapshot taken at 10:00 local on day 2 (= 13:00 UTC, day 2). -/
def exC4now : Int := 2 * 86400000 + 13 * 3600000

/-- C4 counterexample: in a UTC-3 locale a movement recorded on the
previous local day is still counted by `movementsToday`, because the code
compares UTC dates (`DATE('now')` and `toISOString`), not local ones. -/
theorem c4_cex :
    localDay (-180) exC4m.created_at + 1 = localDay (-180) exC4now ∧
    (snapshot exC4db exC4now).movementsToday = 1 := by
  decide

def exC4w : DbState :=
  ⟨[], [], [⟨1, none, none, none, none, "Guardar caixa", none, "Ana", 0⟩], 1, 2⟩

theorem c4_witness : (snapshot exC4w 86400000).movementsToday = 0 :=
  (c4_movementsToday exC4w 86400000).2 (by decide)

/-! ## C7: metadata round trip -/

/-- C7 (confirmed): a unit created with metadata object `o` reads back
(both from `create`'s returned record and from `storage.list`) the
structurally identical value; a unit created without metadata reads back
as `none`, distinct from the empty-but-present object `some (obj [])`. -/
theorem c7_metadata_roundtrip (db : DbState) (p : StoragePayloadM) (now : Int) :
    ((createStorageUnit db p now).2.metadata = p.metadata.map Json.obj) ∧
    (∃ r ∈ listStorageUnits (createStorageUnit db p now).1,
        r.id = db.nextUnitId ∧ r.metadata = p.metadata.map Json.obj) ∧
    (p.metadata = none → (createStorageUnit db p now).2.metadata = none) ∧
    (p.metadata = some [] →
      (createStorageUnit db p now).2.metadata = some (Json.obj []) ∧
      (createStorageUnit db p now).2.metadata ≠ none) := by
  have hmeta : readMetadata (p.metadata.map (fun o => stringify (Json.obj o)))
      = p.metadata.map Json.obj := by
    cases hm : p.metadata with
    | none => simp [readMetadata]
    | some o =>
      simp only [Option.map_some']
      rw [readMetadata, if_neg (stringify_obj_ne_empty o), parseJson_stringify]
  have h1 : (createStorageUnit db p now).2.metadata = p.metadata.map Json.obj := by
    simp only [createStorageUnit, rowToRecord]
    exact hmeta
  refine ⟨h1, ?_, ?_, ?_⟩
  · have hmem : (⟨db.nextUnitId, trimStr p.label, p.type, p.section',
        p.capacity.getD 0, 0, p.metadata.map (fun o => stringify (Json.obj o)),
        now, now⟩ : StorageUnit)
        ∈ sortDesc (fun u : StorageUnit => u.updated_at)
            (createStorageUnit db p now).1.units := by
      apply (sortDesc_perm (fun u : StorageUnit => u.updated_at) _).mem_iff.mpr
      simp [createStorageUnit]
    refine ⟨_, List.mem_map.mpr ⟨_, hmem, rfl⟩, ?_, ?_⟩
    · simp [rowToRecord]
    · simp only [rowToRecord]
      exact hmeta
  · intro hm
    simp [h1, hm]
  · intro hm
    simp [h1, hm]

def exC7db : DbState := ⟨[], [], [], 1, 1⟩

def exC7p : StoragePayloadM :=
  ⟨"Pasta 01", "PASTA", none, some 10, some [("shelf", Json.num 3)]⟩

def exC7p2 : StoragePayloadM := ⟨"Pasta 02", "PASTA", none, none, some []⟩

theorem c7_witness :
    (createStorageUnit exC7db exC7p 5000).2.metadata
      = some (Json.obj [("shelf", Json.num 3)]) ∧
    (createStorageUnit exC7db exC7p2 5000).2.metadata = some (Json.obj []) := by
  constructor
  · simpa using (c7_metadata_roundtrip exC7db exC7p 5000).1
  · exact ((c7_metadata_roundtrip exC7db exC7p2 5000).2.2.2 rfl).1

/-! ## C1: verifyLogin resolution order -/

theorem beforeAt_of_no_at {s : String} (h : hasAtSign s = false) : beforeAt s = s := by
  have hall : ∀ c ∈ s.data, (fun c => !(c == '@')) c = true := by
    intro c hc
    simp only [Bool.not_eq_true']
    by_contra hb
    rw [Bool.not_eq_false] at hb
    have : s.data.any (fun c => c == '@') = true := List.any_eq_true.mpr ⟨c, hc, hb⟩
    rw [hasAtSign] at h
    simp_all
  rw [beforeAt, List.takeWhile_eq_self_iff.mpr hall, string_mk_data]

theorem beforeAt_ne_of_at {s : String} (h : hasAtSign s = true) : beforeAt s ≠ s := by
  intro hc
  obtain ⟨c, hcmem, hcat⟩ := List.any_eq_true.mp h
  have hdata : s.data.takeWhile (fun c => !(c == '@')) = s.data := by
    have := congrArg String.data hc
    simpa [beforeAt] using this
  have hall := List.takeWhile_eq_self_iff.mp hdata
  have := hall c hcmem
  simp_all

/-- The amended claim's resolution order, written with the claim's own
guards: (a) exact case-insensitive match; (b) when the identifier contains
'@', retry with the part before the first '@'; (c) when it does not, retry
with the SQL LIKE pattern `<identifier>@%`. -/
def claimResolve (users : List UserRow) (normalized : String) : Option UserRow :=
  match users.find? (fun u => lowerStr u.login == normalized) with
  | some u => some u
  | none =>
    if hasAtSign normalized then
      users.find? (fun u => lowerStr u.login == beforeAt normalized)
    else
      users.find? (fun u => likeStr (normalized ++ "@%") (lowerStr u.login))

/-- C1 (corrected): `verifyLogin` resolves exactly in the order
(a)/(b)/(c) of `claimResolve` — with step (c) interpreting SQL LIKE
wildcards in the identifier — checks the password hash on the single
resolved row, and collapses every failure (empty normalized login, no
match, hash mismatch) to the same `none`. -/
theorem c1_verifyLogin (cmp : String → String → Bool) (users : List UserRow)
    (login password : String) :
    verifyLogin cmp users login password =
      (if normalizeLogin login = "" then none
       else
         match claimResolve users (normalizeLogin login) with
         | none => none
         | some u => if cmp password u.password_hash then some u.profile else none) := by
  unfold verifyLogin claimResolve
  by_cases hempty : normalizeLogin login = ""
  · simp [hempty]
  · simp only [if_neg hempty]
    by_cases hat : hasAtSign (normalizeLogin login) = true
    · have hne : beforeAt (normalizeLogin login) ≠ normalizeLogin login :=
        beforeAt_ne_of_at hat
      have hbne : (beforeAt (normalizeLogin login) != normalizeLogin login) = true :=
        bne_iff_ne.mpr hne
      cases hfind : users.find? (fun u => lowerStr u.login == normalizeLogin login) with
      | some u => simp [hfind, hat]
      | none => simp [hfind, hat, hbne]
    · have hatf : hasAtSign (normalizeLogin login) = false := by
        simpa using hat
      cases hfind : users.find? (fun u => lowerStr u.login == normalizeLogin login) with
      | some u => simp [hfind, hatf]
      | none => simp [hfind, hatf]

def cmpAlways : String → String → Bool := fun _ _ => true

def exC1u : UserRow := ⟨1, "Nome", "ab@x", "h1", "admin"⟩

/-- C1 counterexample: supplied identifier "A%" (no '@'); no stored login
equals "a%" and none is shaped "a%@<anything>", so by the claim every step
fails and the result should be absent — yet `verifyLogin` resolves the
user "ab@x", because step (c) is SQL LIKE and '%' acts as a wildcard. -/
theorem c1_cex :
    verifyLogin cmpAlways [exC1u] "A%" "pw" = some ⟨1, "Nome", "ab@x", "admin"⟩ ∧
    hasAtSign (normalizeLogin "A%") = false ∧
    (∀ u ∈ [exC1u], ¬ lowerStr u.login = normalizeLogin "A%") ∧
    (∀ u ∈ [exC1u],
      ¬ List.isPrefixOf (normalizeLogin "A%" ++ "@").data (lowerStr u.login).data) := by
  decide

/-! ## C9: ensureDefaultAdmin -/

/-- C9 (corrected): `ensureDefaultAdmin` looks up a credential by exact
case-insensitive match or by the SQL LIKE pattern `<normalized>@%`
(wildcards in the login are interpreted); when none matches it appends a
fresh salted-hash credential, otherwise it unconditionally overwrites the
matched row's login and password hash; in both cases a credential with the
normalized login and the fresh hash is present afterwards. -/
theorem c9_ensureDefaultAdmin (hashed : String) (users : List UserRow)
    (login : String) (newId : Int) :
    (∃ u ∈ ensureDefaultAdmin hashed users login newId,
        u.login = normalizeLogin login ∧ u.password_hash = hashed) ∧
    ((∀ u ∈ users, ¬ (lowerStr u.login == normalizeLogin login ||
        likeStr (normalizeLogin login ++ "@%") (lowerStr u.login)) = true) →
      ensureDefaultAdmin hashed users login newId =
        users ++ [⟨newId, "Administrador", normalizeLogin login, hashed, "admin"⟩]) ∧
    (∀ w, users.find? (fun u => lowerStr u.login == normalizeLogin login ||
        likeStr (normalizeLogin login ++ "@%") (lowerStr u.login)) = some w →
      (ensureDefaultAdmin hashed users login newId).length = users.length ∧
      ∀ v ∈ users, v.id ≠ w.id → v ∈ ensureDefaultAdmin hashed users login newId) := by
  refine ⟨?_, ?_, ?_⟩
  · cases hfind : users.find? (fun u => lowerStr u.login == normalizeLogin login ||
        likeStr (normalizeLogin login ++ "@%") (lowerStr u.login)) with
    | none =>
      refine ⟨⟨newId, "Administrador", normalizeLogin login, hashed, "admin"⟩, ?_, rfl, rfl⟩
      simp [ensureDefaultAdmin, hfind]
    | some w =>
      refine ⟨{ w with login := normalizeLogin login, password_hash := hashed }, ?_, rfl, rfl⟩
      simp only [ensureDefaultAdmin, hfind]
      exact List.mem_map.mpr ⟨w, List.mem_of_find?_eq_some hfind, by simp⟩
  · intro hall
    have hfind : users.find? (fun u => lowerStr u.login == normalizeLogin login ||
        likeStr (normalizeLogin login ++ "@%") (lowerStr u.login)) = none := by
      rw [List.find?_eq_none]
      exact hall
    simp [ensureDefaultAdmin, hfind]
  · intro w hw
    constructor
    · simp [ensureDefaultAdmin, hw]
    · intro v hv hne
      simp only [ensureDefaultAdmin, hw]
      refine List.mem_map.mpr ⟨v, hv, ?_⟩
      simp [beq_eq_false_iff_ne.mpr hne]

def exC9u : UserRow := ⟨1, "Nome", "ab@x", "h0", "admin"⟩

/-- C9 counterexample: the stored login "ab@x" is neither an exact match
for "a%" nor shaped "a%@<anything>", so by the claim a new credential
should be inserted — yet the code's LIKE lookup matches it and overwrites
it in place, leaving a single rewritten row. -/
theorem c9_cex :
    (ensureDefaultAdmin "h1" [exC9u] "a%" 2).length = 1 ∧
    (∀ u ∈ [exC9u], ¬ lowerStr u.login = normalizeLogin "a%") ∧
    (∀ u ∈ [exC9u],
      ¬ List.isPrefixOf (normalizeLogin "a%" ++ "@").data (lowerStr u.login).data) ∧
    ensureDefaultAdmin "h1" [exC9u] "a%" 2 = [⟨1, "Nome", "a%", "h1", "admin"⟩] := by
  decide

theorem c9_witness :
    ensureDefaultAdmin "h2" [] "Admin" 1 =
      [⟨1, "Administrador", "admin", "h2", "admin"⟩] := by
  have h := (c9_ensureDefaultAdmin "h2" [] "Admin" 1).2.1 (by decide)
  rw [h]
  decide

/-! ## C5: session lifecycle -/

theorem mapGet_set (m : SessionMap) (k : String) (s : Session) :
    mapGet (mapSet m k s) k = some s := by
  induction m with
  | nil => simp [mapSet, mapGet]
  | cons kv rest ih =>
    obtain ⟨k2, s2⟩ := kv
    by_cases hk : k2 = k
    · simp [mapSet, hk, mapGet]
    · simp only [mapSet, if_neg hk]
      simpa [mapGet, List.find?_cons, beq_eq_false_iff_ne.mpr hk] using ih

theorem mapGet_delete (m : SessionMap) (k : String) :
    mapGet (mapDelete m k) k = none := by
  simp only [mapGet, Option.map_eq_none']
  rw [List.find?_eq_none]
  intro kv hkv
  have := List.mem_filter.mp hkv
  simpa using this.2

theorem string_ne_empty_of_len {s : String} (h : 10 ≤ s.length) : s ≠ "" := by
  intro hc
  subst hc
  simp [String.length] at h

/-- C5 (confirmed): a successful `auth.login` stores the profile under the
fresh token; `auth.session` with that token returns the very same token and
profile (with a fresh snapshot); after `auth.logout` the same call fails
with the authentication error; and `require` fails exactly when the token
is absent from the session table. -/
theorem c5_session_lifecycle (cmp : String → String → Bool) (st : AppState)
    (login password freshTok : String) (now : Int) (res : LoginData) (st2 : AppState)
    (hlen : 10 ≤ freshTok.length)
    (hlogin : authLogin cmp st login password freshTok now = (Except.ok res, st2)) :
    res.token = freshTok ∧
    (∀ now2, authSession st2 freshTok now2
        = Except.ok ⟨freshTok, res.profile, snapshot st2.db now2⟩) ∧
    (∀ now2, authSession (authLogout st2 freshTok) freshTok now2
        = Except.error "Sessão inválida. Faça login novamente.") ∧
    (∀ (m : SessionMap) (tok : String), tok ≠ "" →
      ((∃ e, sessionsRequire m tok = Except.error e) ↔ mapGet m tok = none)) ∧
    (∀ (s : AppState) (t : String), 10 ≤ t.length → sessionsGet s.sessions t = none →
      storageListHandler s t = Except.error "Sessão inválida. Faça login novamente." ∧
      movementsListHandler s t
        = Except.error "Sessão inválida. Faça login novamente.") := by
  have hne : freshTok ≠ "" := string_ne_empty_of_len hlen
  have hnlt : ¬ freshTok.length < 10 := by omega
  unfold authLogin at hlogin
  by_cases hval : (login.length < 3 || password.length < 4) = true
  · rw [if_pos hval] at hlogin
    exact absurd (congrArg Prod.fst hlogin) (by simp)
  · rw [if_neg hval] at hlogin
    cases hverify : verifyLogin cmp st.db.users login password with
    | none =>
      rw [hverify] at hlogin
      exact absurd (congrArg Prod.fst hlogin) (by simp)
    | some prof =>
      rw [hverify] at hlogin
      simp only [sessionsCreate, Prod.mk.injEq, Except.ok.injEq] at hlogin
      obtain ⟨hres, hst2⟩ := hlogin
      have hsess : st2.sessions = mapSet st.sessions freshTok ⟨freshTok, prof, now⟩ := by
        rw [← hst2]
      refine ⟨?_, ?_, ?_, ?_, ?_⟩
      · rw [← hres]
      · intro now2
        unfold authSession
        rw [if_neg hnlt]
        rw [sessionsRequire, sessionsGet, if_neg hne, hsess, mapGet_set]
        rw [← hres]
      · intro now2
        unfold authSession authLogout
        rw [if_neg hnlt, if_neg hnlt]
        rw [sessionsRequire, sessionsGet, if_neg hne]
        simp only [mapGet_delete]
      · intro m tok htok
        rw [sessionsRequire, sessionsGet, if_neg htok]
        cases hget : mapGet m tok with
        | none => simp
        | some s => simp
      · intro s t htl htn
        have hntl : ¬ t.length < 10 := by omega
        unfold storageListHandler movementsListHandler
        rw [if_neg hntl, if_neg hntl, sessionsRequire, htn]
        exact ⟨rfl, rfl⟩

def exC5user : UserRow := ⟨1, "Administrador", "admin", "senha-hash", "admin"⟩

def exC5st : AppState := ⟨⟨[exC5user], [], [], 1, 1⟩, []⟩

def cmpEq : String → String → Bool := fun a b => a == b

def exC5run : Except String LoginData × AppState :=
  authLogin cmpEq exC5st "admin" "senha-hash" "tok1234567" 0

theorem c5_witness :
    authSession exC5run.2 "tok1234567" 7
      = Except.ok ⟨"tok1234567", ⟨1, "Administrador", "admin", "admin"⟩,
          snapshot exC5run.2.db 7⟩ := by
  have h := c5_session_lifecycle cmpEq exC5st "admin" "senha-hash" "tok1234567" 0
    ⟨"tok1234567", ⟨1, "Administrador", "admin", "admin"⟩, snapshot exC5run.2.db 0⟩
    exC5run.2 (by decide) (by rfl)
  exact h.2.1 7

/-! ## C6: actor provenance -/

/-- C6 (confirmed): a recorded movement's `actor` is the authenticated
session's profile name; the caller-supplied payload — including an injected
`actor` field, which the schema strips — never influences it. -/
theorem c6_actor (st : AppState) (tok : String) (p : RawMovementPayload)
    (now : Int) (sess : Session)
    (hget : sessionsGet st.sessions tok = some sess)
    (hlen : 10 ≤ tok.length) (hact : 3 ≤ p.action.length) :
    (∃ m snap st2, movementsRecord st tok p now = (Except.ok (m, snap), st2) ∧
      m.actor = sess.profile.name) ∧
    (∀ q : RawMovementPayload, 3 ≤ q.action.length →
      ∃ m snap st2, movementsRecord st tok q now = (Except.ok (m, snap), st2) ∧
        m.actor = sess.profile.name) := by
  have hgen : ∀ q : RawMovementPayload, 3 ≤ q.action.length →
      ∃ m snap st2, movementsRecord st tok q now = (Except.ok (m, snap), st2) ∧
        m.actor = sess.profile.name := by
    intro q hq
    have hor : (tok.length < 10 || q.action.length < 3) = false := by
      simp only [Bool.or_eq_false_iff, decide_eq_false_iff_not]
      omega
    unfold movementsRecord
    rw [hor]
    simp only [Bool.false_eq_true, if_false]
    rw [sessionsRequire, hget]
    exact ⟨_, _, _, rfl, rfl⟩
  exact ⟨hgen p hact, hgen⟩

def exC6sess : Session := ⟨"tok1234567", ⟨1, "Ana", "ana", "admin"⟩, 0⟩

def exC6st : AppState := ⟨⟨[], [], [], 1, 1⟩, [("tok1234567", exC6sess)]⟩

/-- Payload that tries to spoof the audit trail with `actor := "Mallory"`. -/
def exC6p : RawMovementPayload :=
  ⟨"Guardar caixa", none, none, none, none, none, some "Mallory"⟩

theorem c6_witness :
    ∃ m snap st2,
      movementsRecord exC6st "tok1234567" exC6p 5 = (Except.ok (m, snap), st2) ∧
      m.actor = "Ana" := by
  obtain ⟨m, snap, st2, heq, hactor⟩ :=
    (c6_actor exC6st "tok1234567" exC6p 5 exC6sess (by decide) (by decide) (by decide)).1
  exact ⟨m, snap, st2, heq, hactor⟩

/-! ## C10: storage:create also writes an audit movement -/

theorem sortDesc_append_max_head (key : α → Int) (l : List α) (a : α)
    (h : ∀ b ∈ l, key b < key a) :
    (sortDesc key (l ++ [a])).head? = some a := by
  have hf : sortDesc key (l ++ [a]) = insertDesc key a (sortDesc key l) := by
    simp [sortDesc, List.foldl_append]
  rw [hf]
  cases hs : sortDesc key l with
  | nil => simp [insertDesc]
  | cons b l2 =>
    have hb : b ∈ l := (sortDesc_perm key l).mem_iff.mp
      (by rw [hs]; exact List.mem_cons_self b l2)
    simp [insertDesc, h b hb]

/-- C10 (corrected): a successful `storage:create` also appends exactly one
movement with action "Cadastro de unidade", the session profile's name as
actor, and the note naming the supplied label; the movement log grows by
one, and — provided every prior movement lies in an earlier wall-clock
second — the new movement is the returned snapshot's `lastMovement`. -/
theorem c10_storageCreate (st : AppState) (tok : String) (p : RawStoragePayload)
    (now : Int) (sess : Session)
    (hget : sessionsGet st.sessions tok = some sess)
    (hlen : 10 ≤ tok.length) (hval : storageValidate p = true)
    (hfresh : ∀ m0 ∈ st.db.movements, secKey m0.created_at < secKey now) :
    ∃ rec snap st2,
      storageCreate st tok p now = (Except.ok (rec, snap), st2) ∧
      ∃ m : Movement,
        st2.db.movements = st.db.movements ++ [m] ∧
        m.action = "Cadastro de unidade" ∧
        m.actor = sess.profile.name ∧
        m.note = some ("Unidade " ++ p.label ++ " criada") ∧
        st2.db.movements.length = st.db.movements.length + 1 ∧
        snap.lastMovement = some m := by
  have hor : (tok.length < 10 || !(storageValidate p)) = false := by
    rw [hval]
    simp only [Bool.not_true, Bool.or_false, decide_eq_false_iff_not]
    omega
  unfold storageCreate
  rw [hor]
  simp only [Bool.false_eq_true, if_false]
  rw [sessionsRequire, hget]
  refine ⟨_, _, _, rfl, ?_⟩
  refine ⟨_, rfl, rfl, rfl, rfl, by simp [createStorageUnit, recordMovement], ?_⟩
  simp only [snapshot, recordMovement, createStorageUnit]
  exact sortDesc_append_max_head _ _ _ hfresh

def exC10sess : Session := ⟨"tok1234567", ⟨1, "Ana", "ana", "admin"⟩, 0⟩

/-- A state with one existing movement at 1.0s, in the same wall-clock
second as the upcoming creation at 1.5s. -/
def exC10st : AppState :=
  ⟨⟨[], [], [⟨1, none, none, none, none, "Guardar caixa", none, "Ana", 1000⟩], 2, 2⟩,
   [("tok1234567", exC10sess)]⟩

def exC10p : RawStoragePayload := ⟨"Caixa 9", "CAIXA", none, none, none⟩

def exC10run : Except String (StorageUnitRecord × Snapshot) × AppState :=
  storageCreate exC10st "tok1234567" exC10p 1500

def exC10lastId : Option Int :=
  match exC10run.1 with
  | Except.ok rs => rs.2.lastMovement.map (fun m => m.id)
  | Except.error _ => none

/-- C10 counterexample: the creation at 1.5s appends the audit movement
(id 2), but the returned snapshot's `lastMovement` is the pre-existing
movement (id 1) recorded at 1.0s — `datetime(created_at)` ties in that
second and the older row wins — so the new unit's audit record does not
become `lastMovement`. -/
theorem c10_cex :
    exC10run.2.db.movements.map (fun m => m.id) = [1, 2] ∧
    (exC10run.2.db.movements.getLast?).map (fun m => m.action)
      = some "Cadastro de unidade" ∧
    exC10lastId = some 1 := by
  decide

/-- A state whose only movement lies in an earlier second. -/
def exC10wst : AppState :=
  ⟨⟨[], [], [⟨1, none, none, none, none, "Guardar caixa", none, "Ana", 0⟩], 2, 2⟩,
   [("tok1234567", exC10sess)]⟩

theorem c10_witness :
    ∃ rec snap st2,
      storageCreate exC10wst "tok1234567" exC10p 3000 = (Except.ok (rec, snap), st2) ∧
      ∃ m : Movement,
        st2.db.movements = exC10wst.db.movements ++ [m] ∧
        m.action = "Cadastro de unidade" ∧
        m.actor = "Ana" ∧
        m.note = some ("Unidade Caixa 9 criada") ∧
        st2.db.movements.length = exC10wst.db.movements.length + 1 ∧
        snap.lastMovement = some m := by
  obtain ⟨rec, snap, st2, heq, m, h1, h2, h3, h4, h5, h6⟩ :=
    c10_storageCreate exC10wst "tok1234567" exC10p 3000 exC10sess
      (by decide) (by decide) (by decide) (by decide)
  exact ⟨rec, snap, st2, heq, m, h1, h2, h3, h4, h5, h6⟩
